import Mathlib

/-!
Shallow embedding of `run.py` from the UnityDataMiner automation wrapper.

Conventions of the embedding:
* Python strings are Lean `String`s; character-level work happens on `String.data`
  (a `List Char`).  Python compares strings by code points; we embed that order as
  `lexLeB` below instead of using Mathlib's iterator-based order, so that it
  kernel-evaluates.
* `re` digit classes `\d` are embedded as ASCII digits (`Char.isDigit`) and
  `[a-zA-Z]` as `Char.isAlpha`; artifact names are ASCII.
* Python `int` applied to an all-digit string is embedded as `digitsVal`; the
  theorems that rely on it carry well-formedness hypotheses keeping us on that
  domain, mirroring the spec's well-formed names.
* Python's stable `sorted` is embedded as `List.insertionSort` (stable).
* Side effects (HTTP posts, the index write, notifications) are embedded as
  returned values; exceptions as `Except`.  Wall-clock timestamps are outside
  the model.
-/

/-- Value of an ASCII digit string, embedding Python `int` on digit strings
(left fold, base 10). -/
def digitsVal (cs : List Char) : Nat :=
  cs.foldl (fun n c => 10 * n + (c.toNat - 48)) 0

/-- Embedding of `split_num` (run.py lines 45-59): match
`(?P<num>\d+)(?P<letter>[a-zA-Z])?(?P<rest>\d*)?` at the start of `s`.
The regex groups are recovered by greedy scanning: maximal digit run, then an
optional single letter, then a maximal digit run.  If the match fails (the
string does not start with a digit) the fallback `(0, s, 0)` is returned. -/
def split_num (s : String) : Nat × String × Nat :=
  if (s.data.takeWhile Char.isDigit).isEmpty then (0, s, 0)
  else
    match s.data.dropWhile Char.isDigit with
    | [] => (digitsVal (s.data.takeWhile Char.isDigit), "", 0)
    | c :: r2 =>
      if c.isAlpha then
        (digitsVal (s.data.takeWhile Char.isDigit), String.mk [c],
          digitsVal (r2.takeWhile Char.isDigit))
      else
        (digitsVal (s.data.takeWhile Char.isDigit), "", 0)

/-- Does the string start with an ASCII digit?  Equivalent to: the pattern
of `split_num` matches at the start of the string. -/
def startsWithDigit (s : String) : Bool :=
  match s.data with
  | [] => false
  | c :: _ => c.isDigit

/-- Embedding of Python `str.split` with a one-character separator. -/
def splitOnChar (sep : Char) : List Char → List (List Char)
  | [] => [[]]
  | c :: t =>
    match splitOnChar sep t with
    | [] => [[]]
    | h :: rest => if c = sep then [] :: h :: rest else (c :: h) :: rest

/-- Embedding of `x.split(".")`. -/
def pySplitDot (x : String) : List String :=
  (splitOnChar '.' x.data).map String.mk

/-- The `i`-th dot-separated segment of a name; total (defaults to `""`),
faithful to Python indexing on names with enough segments. -/
def seg (i : Nat) (x : String) : String :=
  (pySplitDot x).getD i ""

/-- Embedding of Python `int` on a digit-string segment. -/
def pyIntNat (s : String) : Nat := digitsVal s.data

/-- Sort key of run.py line 70: `split_num(x.split(".")[2])[2]`. -/
def key_suf (x : String) : Nat := (split_num (seg 2 x)).2.2

/-- Sort key of run.py line 71: `split_num(x.split(".")[2])[1]`. -/
def key_letter (x : String) : String := (split_num (seg 2 x)).2.1

/-- Sort key of run.py line 72: `split_num(x.split(".")[2])[0]`. -/
def key_qnum (x : String) : Nat := (split_num (seg 2 x)).1

/-- Sort key of run.py line 73: `int(x.split(".")[1])`. -/
def key_minor (x : String) : Nat := pyIntNat (seg 1 x)

/-- Sort key of run.py line 74: `int(x.split(".")[0])`. -/
def key_major (x : String) : Nat := pyIntNat (seg 0 x)

/-- Code-point comparison of char lists: embedding of Python string `<=`
(lexicographic on code points). -/
def lexLeB : List Char → List Char → Bool
  | [], _ => true
  | _ :: _, [] => false
  | a :: as, b :: bs => if a < b then true else if b < a then false else lexLeB as bs

/-- Embedding of Python `<=` on strings. -/
def pyStrLe (s t : String) : Prop := lexLeB s.data t.data = true

/-- Embedding of Python `<` on strings (total order: `s < t` iff not `t <= s`). -/
def pyStrLt (s t : String) : Prop := ¬ pyStrLe t s

instance : DecidableRel pyStrLe := fun s t => by unfold pyStrLe; infer_instance

instance : DecidableRel pyStrLt := fun s t => by unfold pyStrLt; infer_instance

/-- Comparator of the pass on run.py line 70 (qualifier suffix key). -/
def r_suf (a b : String) : Prop := key_suf a ≤ key_suf b

/-- Comparator of the pass on run.py line 71 (qualifier letter key,
Python string order). -/
def r_letter (a b : String) : Prop := pyStrLe (key_letter a) (key_letter b)

/-- Comparator of the pass on run.py line 72 (qualifier number key). -/
def r_qnum (a b : String) : Prop := key_qnum a ≤ key_qnum b

/-- Comparator of the pass on run.py line 73 (minor key). -/
def r_minor (a b : String) : Prop := key_minor a ≤ key_minor b

/-- Comparator of the pass on run.py line 74 (major key). -/
def r_major (a b : String) : Prop := key_major a ≤ key_major b

instance : DecidableRel r_suf := fun a b => by unfold r_suf; infer_instance

instance : DecidableRel r_letter := fun a b => by unfold r_letter; infer_instance

instance : DecidableRel r_qnum := fun a b => by unfold r_qnum; infer_instance

instance : DecidableRel r_minor := fun a b => by unfold r_minor; infer_instance

instance : DecidableRel r_major := fun a b => by unfold r_major; infer_instance

/-- The five sequential stable sorts of `update_index` (run.py lines 70-74),
applied to the (already extension-stripped) library names: by qualifier
suffix, then qualifier letter, then qualifier number, then minor, then
major.  Python's stable `sorted` is embedded as `List.insertionSort`. -/
def sortLibs (l : List String) : List String :=
  let l1 := List.insertionSort r_suf l
  let l2 := List.insertionSort r_letter l1
  let l3 := List.insertionSort r_qnum l2
  let l4 := List.insertionSort r_minor l3
  List.insertionSort r_major l4

/-- Modelled from the spec: the single-pass comparator on the composite
ascending key `(major, minor, qualifierNum, qualifierLetter, qualifierSuffix)`,
i.e. Python tuple comparison (lexicographic, strict-then-equal at each level). -/
def compositeLe (a b : String) : Prop :=
  key_major a < key_major b ∨ (key_major a = key_major b ∧
   (key_minor a < key_minor b ∨ (key_minor a = key_minor b ∧
    (key_qnum a < key_qnum b ∨ (key_qnum a = key_qnum b ∧
     (pyStrLt (key_letter a) (key_letter b) ∨ (key_letter a = key_letter b ∧
      key_suf a ≤ key_suf b)))))))

instance : DecidableRel compositeLe := fun a b => by unfold compositeLe; infer_instance

/-- Modelled from the spec: the single-pass sort by the composite ascending key. -/
def sortByCompositeKey (l : List String) : List String :=
  List.insertionSort compositeLe l

/-- A digit-only, non-empty string. -/
def isDigitStr (s : String) : Bool := !s.data.isEmpty && s.data.all Char.isDigit

/-- Well-formed artifact name as in the spec's data model: at least three
dot-separated segments, and numeric major and minor segments (so the Python
`int` calls of the sort keys succeed and agree with the embedding). -/
def wellFormedName (x : String) : Bool :=
  decide (3 ≤ (pySplitDot x).length) && isDigitStr (seg 0 x) && isDigitStr (seg 1 x)

example : split_num "0a1" = (0, "a", 1) := by decide
example : split_num "0b12" = (0, "b", 12) := by decide
example : split_num "12" = (12, "", 0) := by decide
example : split_num "x1" = (0, "x1", 0) := by decide
example : sortLibs ["2021.3.5f1", "2021.3.10a2", "2020.1.1"] =
    ["2020.1.1", "2021.3.5f1", "2021.3.10a2"] := by decide
example : sortByCompositeKey ["2021.3.5f1", "2021.3.10a2", "2020.1.1"] =
    ["2020.1.1", "2021.3.5f1", "2021.3.10a2"] := by decide
example : wellFormedName "2021.3.5f1" = true := by decide

theorem lexLeB_refl (cs : List Char) : lexLeB cs cs = true := by
  induction cs with
  | nil => rfl
  | cons a t ih => simp [lexLeB, lt_irrefl, ih]

theorem lexLeB_total (as bs : List Char) : lexLeB as bs = true ∨ lexLeB bs as = true := by
  induction as generalizing bs with
  | nil => left; rfl
  | cons a t ih =>
    cases bs with
    | nil => right; rfl
    | cons b u =>
      rcases lt_trichotomy a b with h | h | h
      · left; simp [lexLeB, h]
      · subst h
        rcases ih u with h2 | h2
        · left; simp [lexLeB, lt_irrefl, h2]
        · right; simp [lexLeB, lt_irrefl, h2]
      · right; simp [lexLeB, h]

theorem lexLeB_trans : ∀ (as bs cs : List Char),
    lexLeB as bs = true → lexLeB bs cs = true → lexLeB as cs = true := by
  intro as
  induction as with
  | nil => intro bs cs _ _; rfl
  | cons a t ih =>
    intro bs cs h1 h2
    cases bs with
    | nil => simp [lexLeB] at h1
    | cons b u =>
      cases cs with
      | nil => simp [lexLeB] at h2
      | cons c v =>
        rcases lt_trichotomy a b with hab | hab | hab
        · rcases lt_trichotomy b c with hbc | hbc | hbc
          · simp [lexLeB, lt_trans hab hbc]
          · subst hbc; simp [lexLeB, hab]
          · rw [lexLeB, if_neg (lt_asymm hbc), if_pos hbc] at h2
            exact Bool.noConfusion h2
        · subst hab
          rcases lt_trichotomy a c with hac | hac | hac
          · simp [lexLeB, hac]
          · subst hac
            rw [lexLeB, if_neg (lt_irrefl a), if_neg (lt_irrefl a)] at h1
            rw [lexLeB, if_neg (lt_irrefl a), if_neg (lt_irrefl a)] at h2
            simp [lexLeB, lt_irrefl, ih u v h1 h2]
          · rw [lexLeB, if_neg (lt_asymm hac), if_pos hac] at h2
            exact Bool.noConfusion h2
        · rw [lexLeB, if_neg (lt_asymm hab), if_pos hab] at h1
          exact Bool.noConfusion h1

theorem lexLeB_antisymm : ∀ (as bs : List Char),
    lexLeB as bs = true → lexLeB bs as = true → as = bs := by
  intro as
  induction as with
  | nil =>
    intro bs h1 h2
    cases bs with
    | nil => rfl
    | cons b u => simp [lexLeB] at h2
  | cons a t ih =>
    intro bs h1 h2
    cases bs with
    | nil => simp [lexLeB] at h1
    | cons b u =>
      rcases lt_trichotomy a b with hab | hab | hab
      · rw [lexLeB, if_neg (lt_asymm hab), if_pos hab] at h2
        exact Bool.noConfusion h2
      · subst hab
        rw [lexLeB, if_neg (lt_irrefl a), if_neg (lt_irrefl a)] at h1
        rw [lexLeB, if_neg (lt_irrefl a), if_neg (lt_irrefl a)] at h2
        exact congrArg (List.cons a) (ih u h1 h2)
      · rw [lexLeB, if_neg (lt_asymm hab), if_pos hab] at h1
        exact Bool.noConfusion h1

theorem pyStrLe_refl (s : String) : pyStrLe s s := lexLeB_refl s.data

theorem pyStrLe_total (s t : String) : pyStrLe s t ∨ pyStrLe t s := lexLeB_total s.data t.data

theorem pyStrLe_trans {s t u : String} (h1 : pyStrLe s t) (h2 : pyStrLe t u) : pyStrLe s u :=
  lexLeB_trans s.data t.data u.data h1 h2

theorem pyStrLe_antisymm {s t : String} (h1 : pyStrLe s t) (h2 : pyStrLe t s) : s = t := by
  have h := lexLeB_antisymm s.data t.data h1 h2
  cases s with
  | mk l =>
    cases t with
    | mk l2 => exact congrArg String.mk h

instance : IsTrans String pyStrLe := ⟨fun _ _ _ => pyStrLe_trans⟩

instance : IsAntisymm String pyStrLe := ⟨fun _ _ => pyStrLe_antisymm⟩

instance : IsTotal String pyStrLe := ⟨pyStrLe_total⟩

instance : IsRefl String pyStrLe := ⟨pyStrLe_refl⟩

/-- Lexicographic combination of two total preorders: compare by `p` first,
breaking `p`-ties by `q`.  This is the comparator a composite sort key induces. -/
def lexComb {α : Type*} (p q : α → α → Prop) : α → α → Prop :=
  fun a b => p a b ∧ (p b a → q a b)

instance {α : Type*} (p q : α → α → Prop) [DecidableRel p] [DecidableRel q] :
    DecidableRel (lexComb p q) := fun a b => by unfold lexComb; infer_instance

theorem lexComb_total {α : Type*} {p q : α → α → Prop}
    (hp : ∀ a b, p a b ∨ p b a) (hq : ∀ a b, q a b ∨ q b a) (a b : α) :
    lexComb p q a b ∨ lexComb p q b a := by
  rcases hp a b with h1 | h1
  · by_cases h2 : p b a
    · rcases hq a b with h3 | h3
      · exact Or.inl ⟨h1, fun _ => h3⟩
      · exact Or.inr ⟨h2, fun _ => h3⟩
    · exact Or.inl ⟨h1, fun h => absurd h h2⟩
  · by_cases h2 : p a b
    · rcases hq a b with h3 | h3
      · exact Or.inl ⟨h2, fun _ => h3⟩
      · exact Or.inr ⟨h1, fun _ => h3⟩
    · exact Or.inr ⟨h1, fun h => absurd h h2⟩

theorem lexComb_trans {α : Type*} {p q : α → α → Prop}
    (hp : ∀ a b c, p a b → p b c → p a c) (hq : ∀ a b c, q a b → q b c → q a c)
    {a b c : α} (h1 : lexComb p q a b) (h2 : lexComb p q b c) : lexComb p q a c := by
  obtain ⟨hab, hab2⟩ := h1
  obtain ⟨hbc, hbc2⟩ := h2
  refine ⟨hp a b c hab hbc, fun hca => ?_⟩
  have hba : p b a := hp b c a hbc hca
  have hcb : p c b := hp c a b hca hab
  exact hq a b c (hab2 hba) (hbc2 hcb)

/-- Decorate a list with positions starting at `n` (to reason about
stability of sorting). -/
def withIdx {α : Type*} : Nat → List α → List (Nat × α)
  | _, [] => []
  | n, a :: t => (n, a) :: withIdx (n + 1) t

theorem withIdx_map_snd {α : Type*} : ∀ (n : Nat) (l : List α),
    (withIdx n l).map Prod.snd = l := by
  intro n l
  induction l generalizing n with
  | nil => rfl
  | cons a t ih => simp [withIdx, ih]

theorem mem_withIdx_le {α : Type*} : ∀ {n : Nat} {l : List α} {x : Nat × α},
    x ∈ withIdx n l → n ≤ x.1 := by
  intro n l
  induction l generalizing n with
  | nil => intro x h; simp [withIdx] at h
  | cons a t ih =>
    intro x h
    simp only [withIdx, List.mem_cons] at h
    rcases h with h | h
    · subst h; exact Nat.le_refl n
    · exact Nat.le_of_succ_le (ih h)

theorem withIdx_pairwise {α : Type*} : ∀ (n : Nat) (l : List α),
    (withIdx n l).Pairwise (fun x y => x.1 < y.1) := by
  intro n l
  induction l generalizing n with
  | nil => exact List.Pairwise.nil
  | cons a t ih =>
    refine List.Pairwise.cons ?_ (ih (n + 1))
    intro y hy
    exact Nat.lt_of_succ_le (mem_withIdx_le hy)

theorem pairwise_fst_lt_inj {α : Type*} {dl : List (Nat × α)}
    (h : dl.Pairwise (fun x y => x.1 < y.1)) :
    ∀ x ∈ dl, ∀ y ∈ dl, x.1 = y.1 → x = y := by
  induction dl with
  | nil => intro x hx; simp at hx
  | cons a t ih =>
    rcases List.pairwise_cons.mp h with ⟨ha, ht⟩
    intro x hx y hy hxy
    rcases List.mem_cons.mp hx with hx1 | hx1 <;> rcases List.mem_cons.mp hy with hy1 | hy1
    · subst hx1; subst hy1; rfl
    · subst hx1; exact absurd hxy (Nat.ne_of_lt (ha y hy1))
    · subst hy1; exact absurd hxy.symm (Nat.ne_of_lt (ha x hx1))
    · exact ih ht x hx1 y hy1 hxy

/-- A relation on decorated elements that only looks at the payload. -/
def liftSnd {α : Type*} (q : α → α → Prop) : Nat × α → Nat × α → Prop :=
  fun x y => q x.2 y.2

instance {α : Type*} (q : α → α → Prop) [DecidableRel q] : DecidableRel (liftSnd q) :=
  fun x y => by unfold liftSnd; infer_instance

/-- Position order on decorated elements. -/
def idxLe {α : Type*} : Nat × α → Nat × α → Prop := fun x y => x.1 ≤ y.1

instance {α : Type*} : DecidableRel (idxLe : Nat × α → Nat × α → Prop) :=
  fun x y => Nat.decLe x.1 y.1

theorem map_snd_orderedInsert {α : Type*} (R : Nat × α → Nat × α → Prop) (q : α → α → Prop)
    [DecidableRel R] [DecidableRel q] (a : Nat × α) :
    ∀ (s : List (Nat × α)), (∀ b ∈ s, (R a b ↔ q a.2 b.2)) →
      (List.orderedInsert R a s).map Prod.snd =
        List.orderedInsert q a.2 (s.map Prod.snd) := by
  intro s
  induction s with
  | nil => intro _; rfl
  | cons b t ih =>
    intro h
    by_cases hq : q a.2 b.2
    · have hR : R a b := (h b (List.mem_cons_self b t)).mpr hq
      simp [List.orderedInsert, hR, hq]
    · have hR : ¬ R a b := fun hr => hq ((h b (List.mem_cons_self b t)).mp hr)
      simp [List.orderedInsert, hR, hq, ih (fun x hx => h x (List.mem_cons_of_mem b hx))]

/-- Stability of insertion sort, phrased through decoration: sorting the
decorated list by payload order with any tie-break `t` that already holds
along the list projects to sorting the plain list. -/
theorem map_snd_insertionSort {α : Type*} (q : α → α → Prop)
    (t : Nat × α → Nat × α → Prop) [DecidableRel q] [DecidableRel t] :
    ∀ (dl : List (Nat × α)), dl.Pairwise t →
      (List.insertionSort (lexComb (liftSnd q) t) dl).map Prod.snd =
        List.insertionSort q (dl.map Prod.snd) := by
  intro dl
  induction dl with
  | nil => intro _; rfl
  | cons a dt ih =>
    intro h
    rcases List.pairwise_cons.mp h with ⟨ha, ht⟩
    have hcond : ∀ b ∈ List.insertionSort (lexComb (liftSnd q) t) dt,
        (lexComb (liftSnd q) t a b ↔ q a.2 b.2) := by
      intro b hb
      have hbmem : b ∈ dt := (List.mem_insertionSort _).mp hb
      exact ⟨fun hr => hr.1, fun hq2 => ⟨hq2, fun _ => ha b hbmem⟩⟩
    calc (List.insertionSort (lexComb (liftSnd q) t) (a :: dt)).map Prod.snd
        = (List.orderedInsert (lexComb (liftSnd q) t) a
            (List.insertionSort (lexComb (liftSnd q) t) dt)).map Prod.snd := rfl
      _ = List.orderedInsert q a.2
            ((List.insertionSort (lexComb (liftSnd q) t) dt).map Prod.snd) :=
          map_snd_orderedInsert _ _ _ _ hcond
      _ = List.orderedInsert q a.2 (List.insertionSort q (dt.map Prod.snd)) := by rw [ih ht]
      _ = List.insertionSort q ((a :: dt).map Prod.snd) := rfl

theorem orderedInsert_congr {α : Type*} {r r2 : α → α → Prop}
    [DecidableRel r] [DecidableRel r2] (h : ∀ a b, r a b ↔ r2 a b) (a : α) :
    ∀ l, List.orderedInsert r a l = List.orderedInsert r2 a l := by
  intro l
  induction l with
  | nil => rfl
  | cons b t ih =>
    by_cases hr : r a b
    · simp [List.orderedInsert, hr, (h a b).mp hr]
    · have hr2 : ¬ r2 a b := fun h2 => hr ((h a b).mpr h2)
      simp [List.orderedInsert, hr, hr2, ih]

theorem insertionSort_congr {α : Type*} {r r2 : α → α → Prop}
    [DecidableRel r] [DecidableRel r2] (h : ∀ a b, r a b ↔ r2 a b) :
    ∀ l, List.insertionSort r l = List.insertionSort r2 l := by
  intro l
  induction l with
  | nil => rfl
  | cons a t ih => simp [List.insertionSort, ih, orderedInsert_congr h a]

/-- Two sorted permutations of each other are equal, assuming antisymmetry of
the relation on the members of the lists. -/
theorem sorted_perm_eq {α : Type*} (r : α → α → Prop) :
    ∀ {l1 l2 : List α}, l1.Perm l2 → l1.Sorted r → l2.Sorted r →
      (∀ x ∈ l1, ∀ y ∈ l1, r x y → r y x → x = y) → l1 = l2 := by
  intro l1
  induction l1 with
  | nil =>
    intro l2 hp _ _ _
    exact (hp.symm.eq_nil).symm
  | cons a t1 ih =>
    intro l2 hp hs1 hs2 hanti
    cases l2 with
    | nil => exact absurd (List.perm_nil.mp hp) (by simp)
    | cons b t2 =>
      have hab : a = b := by
        have ha2 : a ∈ b :: t2 := hp.subset (List.mem_cons_self a t1)
        rcases List.mem_cons.mp ha2 with h | h
        · exact h
        · have hb1 : b ∈ a :: t1 := hp.symm.subset (List.mem_cons_self b t2)
          rcases List.mem_cons.mp hb1 with h2 | h2
          · exact h2.symm
          · have hrab : r a b := (List.sorted_cons.mp hs1).1 b h2
            have hrba : r b a := (List.sorted_cons.mp hs2).1 a h
            exact hanti a (List.mem_cons_self a t1) b (List.mem_cons_of_mem a h2) hrab hrba
      subst hab
      have hp2 : t1.Perm t2 := hp.cons_inv
      have htail := ih hp2 (List.sorted_cons.mp hs1).2 (List.sorted_cons.mp hs2).2
        (fun x hx y hy => hanti x (List.mem_cons_of_mem a hx) y (List.mem_cons_of_mem a hy))
      rw [htail]

/-- Composing two stable sorts equals one stable sort by the lexicographic
combination: sorting by `q` and then (stably) by `p` is sorting by
"`p`, ties broken by `q`". -/
theorem insertionSort_insertionSort {α : Type*} (p q : α → α → Prop)
    [DecidableRel p] [DecidableRel q]
    (ptot : ∀ a b, p a b ∨ p b a) (ptr : ∀ a b c, p a b → p b c → p a c)
    (qtot : ∀ a b, q a b ∨ q b a) (qtr : ∀ a b c, q a b → q b c → q a c)
    (l : List α) :
    List.insertionSort p (List.insertionSort q l) =
      List.insertionSort (lexComb p q) l := by
  have hpw : (withIdx 0 l).Pairwise (idxLe : Nat × α → Nat × α → Prop) :=
    (withIdx_pairwise 0 l).imp (fun {x y} h => Nat.le_of_lt h)
  have hq_tot : ∀ x y : Nat × α, lexComb (liftSnd q) idxLe x y ∨ lexComb (liftSnd q) idxLe y x :=
    lexComb_total (fun x y => qtot x.2 y.2) (fun x y => Nat.le_total x.1 y.1)
  have hq_tr : ∀ x y z : Nat × α, lexComb (liftSnd q) idxLe x y →
      lexComb (liftSnd q) idxLe y z → lexComb (liftSnd q) idxLe x z :=
    fun x y z h1 h2 => lexComb_trans (fun (a b c : Nat × α) ha hb => qtr a.2 b.2 c.2 ha hb)
      (fun (a b c : Nat × α) (ha : a.1 ≤ b.1) (hb : b.1 ≤ c.1) => Nat.le_trans ha hb) h1 h2
  have s1 : (List.insertionSort (lexComb (liftSnd q) idxLe) (withIdx 0 l)).map Prod.snd
      = List.insertionSort q l := by
    rw [map_snd_insertionSort q idxLe (withIdx 0 l) hpw, withIdx_map_snd]
  have hLsorted : (List.insertionSort (lexComb (liftSnd q) idxLe)
      (withIdx 0 l)).Pairwise (lexComb (liftSnd q) idxLe) := by
    haveI : IsTotal (Nat × α) (lexComb (liftSnd q) idxLe) := ⟨hq_tot⟩
    haveI : IsTrans (Nat × α) (lexComb (liftSnd q) idxLe) := ⟨hq_tr⟩
    exact List.sorted_insertionSort _ _
  have s2 : (List.insertionSort (lexComb (liftSnd p) (lexComb (liftSnd q) idxLe))
        (List.insertionSort (lexComb (liftSnd q) idxLe) (withIdx 0 l))).map Prod.snd
      = List.insertionSort p (List.insertionSort q l) := by
    rw [map_snd_insertionSort p (lexComb (liftSnd q) idxLe) _ hLsorted, s1]
  have s3 : (List.insertionSort (lexComb (liftSnd (lexComb p q)) idxLe)
        (withIdx 0 l)).map Prod.snd = List.insertionSort (lexComb p q) l := by
    rw [map_snd_insertionSort (lexComb p q) idxLe (withIdx 0 l) hpw, withIdx_map_snd]
  have hiff : ∀ x y : Nat × α,
      lexComb (liftSnd p) (lexComb (liftSnd q) idxLe) x y ↔
        lexComb (liftSnd (lexComb p q)) idxLe x y := by
    intro x y
    unfold lexComb liftSnd idxLe
    tauto
  have hR2_tot : ∀ x y : Nat × α, lexComb (liftSnd (lexComb p q)) idxLe x y ∨
      lexComb (liftSnd (lexComb p q)) idxLe y x :=
    lexComb_total (fun x y => lexComb_total ptot qtot x.2 y.2)
      (fun x y => Nat.le_total x.1 y.1)
  have hR2_tr : ∀ x y z : Nat × α, lexComb (liftSnd (lexComb p q)) idxLe x y →
      lexComb (liftSnd (lexComb p q)) idxLe y z → lexComb (liftSnd (lexComb p q)) idxLe x z :=
    fun x y z h1 h2 => lexComb_trans
      (fun (a b c : Nat × α) (ha : lexComb p q a.2 b.2) (hb : lexComb p q b.2 c.2) =>
        lexComb_trans ptr qtr ha hb)
      (fun (a b c : Nat × α) (ha : a.1 ≤ b.1) (hb : b.1 ≤ c.1) => Nat.le_trans ha hb) h1 h2
  have hR1_tot : ∀ x y : Nat × α, lexComb (liftSnd p) (lexComb (liftSnd q) idxLe) x y ∨
      lexComb (liftSnd p) (lexComb (liftSnd q) idxLe) y x :=
    lexComb_total (fun x y => ptot x.2 y.2) hq_tot
  have hR1_tr : ∀ x y z : Nat × α, lexComb (liftSnd p) (lexComb (liftSnd q) idxLe) x y →
      lexComb (liftSnd p) (lexComb (liftSnd q) idxLe) y z →
      lexComb (liftSnd p) (lexComb (liftSnd q) idxLe) x z :=
    fun x y z h1 h2 => lexComb_trans (fun (a b c : Nat × α) ha hb => ptr a.2 b.2 c.2 ha hb) hq_tr h1 h2
  have hpermA : (List.insertionSort (lexComb (liftSnd p) (lexComb (liftSnd q) idxLe))
      (List.insertionSort (lexComb (liftSnd q) idxLe) (withIdx 0 l))).Perm (withIdx 0 l) :=
    (List.perm_insertionSort _ _).trans (List.perm_insertionSort _ _)
  have hpermB : (List.insertionSort (lexComb (liftSnd (lexComb p q)) idxLe)
      (withIdx 0 l)).Perm (withIdx 0 l) := List.perm_insertionSort _ _
  have hAB : List.insertionSort (lexComb (liftSnd p) (lexComb (liftSnd q) idxLe))
        (List.insertionSort (lexComb (liftSnd q) idxLe) (withIdx 0 l))
      = List.insertionSort (lexComb (liftSnd (lexComb p q)) idxLe) (withIdx 0 l) := by
    apply sorted_perm_eq (lexComb (liftSnd (lexComb p q)) idxLe)
    · exact hpermA.trans hpermB.symm
    · have hs : (List.insertionSort (lexComb (liftSnd p) (lexComb (liftSnd q) idxLe))
          (List.insertionSort (lexComb (liftSnd q) idxLe) (withIdx 0 l))).Pairwise
            (lexComb (liftSnd p) (lexComb (liftSnd q) idxLe)) := by
        haveI : IsTotal (Nat × α) (lexComb (liftSnd p) (lexComb (liftSnd q) idxLe)) := ⟨hR1_tot⟩
        haveI : IsTrans (Nat × α) (lexComb (liftSnd p) (lexComb (liftSnd q) idxLe)) := ⟨hR1_tr⟩
        exact List.sorted_insertionSort _ _
      exact hs.imp (fun {x y} hxy => (hiff x y).mp hxy)
    · haveI : IsTotal (Nat × α) (lexComb (liftSnd (lexComb p q)) idxLe) := ⟨hR2_tot⟩
      haveI : IsTrans (Nat × α) (lexComb (liftSnd (lexComb p q)) idxLe) := ⟨hR2_tr⟩
      exact List.sorted_insertionSort _ _
    · intro x hx y hy h1 h2
      have hxdl : x ∈ withIdx 0 l := hpermA.subset hx
      have hydl : y ∈ withIdx 0 l := hpermA.subset hy
      have hle1 : x.1 ≤ y.1 := h1.2 h2.1
      have hle2 : y.1 ≤ x.1 := h2.2 h1.1
      exact pairwise_fst_lt_inj (withIdx_pairwise 0 l) x hxdl y hydl
        (Nat.le_antisymm hle1 hle2)
  calc List.insertionSort p (List.insertionSort q l)
      = (List.insertionSort (lexComb (liftSnd p) (lexComb (liftSnd q) idxLe))
          (List.insertionSort (lexComb (liftSnd q) idxLe) (withIdx 0 l))).map Prod.snd := s2.symm
    _ = (List.insertionSort (lexComb (liftSnd (lexComb p q)) idxLe)
          (withIdx 0 l)).map Prod.snd := by rw [hAB]
    _ = List.insertionSort (lexComb p q) l := s3

theorem level_nat_iff {x y : Nat} {R S : Prop} (h : R ↔ S) :
    (x ≤ y ∧ (y ≤ x → R)) ↔ (x < y ∨ (x = y ∧ S)) := by
  constructor
  · rintro ⟨h1, h2⟩
    rcases Nat.lt_or_ge x y with hl | hg
    · exact Or.inl hl
    · exact Or.inr ⟨Nat.le_antisymm h1 hg, h.mp (h2 hg)⟩
  · rintro (hl | ⟨he, hs⟩)
    · exact ⟨Nat.le_of_lt hl, fun hyx => absurd (Nat.lt_of_lt_of_le hl hyx) (Nat.lt_irrefl x)⟩
    · subst he
      exact ⟨Nat.le_refl x, fun _ => h.mpr hs⟩

theorem level_str_iff {u v : String} {R S : Prop} (h : R ↔ S) :
    (pyStrLe u v ∧ (pyStrLe v u → R)) ↔ (pyStrLt u v ∨ (u = v ∧ S)) := by
  constructor
  · rintro ⟨h1, h2⟩
    by_cases hvu : pyStrLe v u
    · exact Or.inr ⟨pyStrLe_antisymm h1 hvu, h.mp (h2 hvu)⟩
    · exact Or.inl hvu
  · rintro (hl | ⟨he, hs⟩)
    · rcases pyStrLe_total u v with h1 | h1
      · exact ⟨h1, fun hvu => absurd hvu hl⟩
      · exact absurd h1 hl
    · subst he
      exact ⟨pyStrLe_refl u, fun _ => h.mpr hs⟩

/-- The nested lexicographic combination of the five pass comparators is
exactly the spec's composite-key comparator. -/
theorem fivePassRel_iff (a b : String) :
    lexComb r_major (lexComb r_minor (lexComb r_qnum (lexComb r_letter r_suf))) a b ↔
      compositeLe a b := by
  unfold lexComb r_major r_minor r_qnum r_letter r_suf compositeLe
  exact level_nat_iff (level_nat_iff (level_nat_iff (level_str_iff Iff.rfl)))

theorem r_suf_total : ∀ a b, r_suf a b ∨ r_suf b a := fun _ _ => Nat.le_total _ _

theorem r_suf_trans : ∀ a b c, r_suf a b → r_suf b c → r_suf a c :=
  fun _ _ _ h1 h2 => Nat.le_trans h1 h2

theorem r_letter_total : ∀ a b, r_letter a b ∨ r_letter b a := fun _ _ => pyStrLe_total _ _

theorem r_letter_trans : ∀ a b c, r_letter a b → r_letter b c → r_letter a c :=
  fun _ _ _ h1 h2 => pyStrLe_trans h1 h2

theorem r_qnum_total : ∀ a b, r_qnum a b ∨ r_qnum b a := fun _ _ => Nat.le_total _ _

theorem r_qnum_trans : ∀ a b c, r_qnum a b → r_qnum b c → r_qnum a c :=
  fun _ _ _ h1 h2 => Nat.le_trans h1 h2

theorem r_minor_total : ∀ a b, r_minor a b ∨ r_minor b a := fun _ _ => Nat.le_total _ _

theorem r_minor_trans : ∀ a b c, r_minor a b → r_minor b c → r_minor a c :=
  fun _ _ _ h1 h2 => Nat.le_trans h1 h2

theorem r_major_total : ∀ a b, r_major a b ∨ r_major b a := fun _ _ => Nat.le_total _ _

theorem r_major_trans : ∀ a b c, r_major a b → r_major b c → r_major a c :=
  fun _ _ _ h1 h2 => Nat.le_trans h1 h2

/-- Claim C1: the Index Renderer's five sequential stable sorts (keyed, in
order of application, by qualifierSuffix, qualifierLetter, qualifierNum,
minor, major) produce, for every list of well-formed names, the same list as
a single-pass stable sort by the composite ascending key
(major, minor, qualifierNum, qualifierLetter, qualifierSuffix). -/
theorem five_pass_sort_eq_composite (l : List String)
    (_wf : ∀ x ∈ l, wellFormedName x = true) :
    sortLibs l = sortByCompositeKey l := by
  have h21tot : ∀ a b : String, lexComb r_letter r_suf a b ∨ lexComb r_letter r_suf b a :=
    lexComb_total r_letter_total r_suf_total
  have h21tr : ∀ a b c : String, lexComb r_letter r_suf a b → lexComb r_letter r_suf b c →
      lexComb r_letter r_suf a c :=
    fun _ _ _ h1 h2 => lexComb_trans r_letter_trans r_suf_trans h1 h2
  have h321tot : ∀ a b : String, lexComb r_qnum (lexComb r_letter r_suf) a b ∨
      lexComb r_qnum (lexComb r_letter r_suf) b a :=
    lexComb_total r_qnum_total h21tot
  have h321tr : ∀ a b c : String, lexComb r_qnum (lexComb r_letter r_suf) a b →
      lexComb r_qnum (lexComb r_letter r_suf) b c →
      lexComb r_qnum (lexComb r_letter r_suf) a c :=
    fun _ _ _ h1 h2 => lexComb_trans r_qnum_trans h21tr h1 h2
  have h4321tot : ∀ a b : String, lexComb r_minor (lexComb r_qnum (lexComb r_letter r_suf)) a b ∨
      lexComb r_minor (lexComb r_qnum (lexComb r_letter r_suf)) b a :=
    lexComb_total r_minor_total h321tot
  have h4321tr : ∀ a b c : String,
      lexComb r_minor (lexComb r_qnum (lexComb r_letter r_suf)) a b →
      lexComb r_minor (lexComb r_qnum (lexComb r_letter r_suf)) b c →
      lexComb r_minor (lexComb r_qnum (lexComb r_letter r_suf)) a c :=
    fun _ _ _ h1 h2 => lexComb_trans r_minor_trans h321tr h1 h2
  simp only [sortLibs, sortByCompositeKey]
  rw [insertionSort_insertionSort r_letter r_suf r_letter_total r_letter_trans
    r_suf_total r_suf_trans l]
  rw [insertionSort_insertionSort r_qnum (lexComb r_letter r_suf) r_qnum_total r_qnum_trans
    h21tot h21tr l]
  rw [insertionSort_insertionSort r_minor (lexComb r_qnum (lexComb r_letter r_suf))
    r_minor_total r_minor_trans h321tot h321tr l]
  rw [insertionSort_insertionSort r_major (lexComb r_minor (lexComb r_qnum
    (lexComb r_letter r_suf))) r_major_total r_major_trans h4321tot h4321tr l]
  exact insertionSort_congr fivePassRel_iff l

/-- Witness for C1 at a concrete list of well-formed names. -/
theorem five_pass_sort_eq_composite_holds :
    (∀ x ∈ ["2021.3.5f1", "2021.3.10a2", "2020.1.1"], wellFormedName x = true) ∧
      sortLibs ["2021.3.5f1", "2021.3.10a2", "2020.1.1"] =
        sortByCompositeKey ["2021.3.5f1", "2021.3.10a2", "2020.1.1"] :=
  ⟨by decide, five_pass_sort_eq_composite ["2021.3.5f1", "2021.3.10a2", "2020.1.1"] (by decide)⟩

/-- Embedding of `os.path.basename`: the part after the last slash. -/
def py_basename (s : String) : String :=
  String.mk ((s.data.reverse.takeWhile (fun c => c ≠ '/')).reverse)

/-- Index of the last occurrence of `c`, if any. -/
def lastIdxOf (c : Char) : List Char → Option Nat
  | [] => none
  | a :: t =>
    match lastIdxOf c t with
    | some i => some (i + 1)
    | none => if a = c then some 0 else none

/-- Embedding of the split point computed by `os.path.splitext`: the index of
the last dot, provided it lies after the last slash and some character
strictly between the basename start and that dot is not a dot (leading dots
of a basename never start an extension). -/
def extBase (cs : List Char) : Nat :=
  match lastIdxOf '/' cs with
  | none => 0
  | some k => k + 1

def extIdx (cs : List Char) : Option Nat :=
  match lastIdxOf '.' cs with
  | none => none
  | some d =>
    if extBase cs ≤ d then
      if ((cs.take d).drop (extBase cs)).any (fun x => x ≠ '.') then some d else none
    else none

/-- Embedding of `os.path.splitext` (posixpath semantics). -/
def py_splitext (s : String) : String × String :=
  match extIdx s.data with
  | none => (s, "")
  | some d => (String.mk (s.data.take d), String.mk (s.data.drop d))

/-- Embedding of the per-name stripping on run.py line 69:
`p.splitext(p.basename(lib))[0]`. -/
def strip_name (lib : String) : String := (py_splitext (py_basename lib)).1

/-- Embedding of the Python slice `v[:-3]` used in the announce body
(run.py line 96): drop the last three characters. -/
def announce_display (v : String) : String :=
  String.mk (v.data.take (v.data.length - 3))

/-- Embedding of `sorted(diff)` (run.py line 96): a Python set is sorted into
a list by plain string order. -/
def announce_sorted (d : Finset String) : List String := d.sort pyStrLe

/-- The `$libs` substitution of the announce template (run.py line 96). -/
def announce_lines (d : Finset String) : String :=
  String.intercalate "\n" ((announce_sorted d).map (fun v => "* " ++ announce_display v))

/-- Configuration of the runner (section `[runner]`), every key optional. -/
structure Config where
  docker_network : Option String
  announce_discord_webhook : Option String
  error_discord_webhook : Option String
  listing_url : Option String

/-- Severity tag distinguishing the two notification call sites
(the spec's NotificationEvent severity). -/
inductive Sev where
  | announce
  | error
deriving DecidableEq

/-- A notification event: one `push_discord` invocation with its arguments
(run.py lines 94-98 and 103-104). -/
structure Note where
  sev : Sev
  url : Option String
  color : String
  title : String
  msg : String

/-- Embedding of `announce_template.substitute` (run.py lines 21-26, 94-98). -/
def announceMsg (cfg : Config) (d : Finset String) : String :=
  "\nNew Unity libraries available:\n" ++ announce_lines d ++
    "\nView all libraries at " ++ cfg.listing_url.getD "" ++ ".\n"

/-- The announce notification event (run.py lines 94-98). -/
def announceNote (cfg : Config) (d : Finset String) : Note :=
  ⟨Sev.announce, cfg.announce_discord_webhook, "30b563", "New Unity Libs", announceMsg cfg d⟩

/-- The error notification event (run.py lines 103-104). -/
def errorNote (cfg : Config) (code : Int) : Note :=
  ⟨Sev.error, cfg.error_discord_webhook, "bd3d3d", "Error",
    "Unexpected error while running script: `" ++ toString code ++ "`"⟩

/-- Value of an ASCII hex digit (for `int(color, 16)`). -/
def hexDigitVal (c : Char) : Nat :=
  if c.isDigit then c.toNat - 48
  else if c.isLower then c.toNat - 87
  else c.toNat - 55

/-- Embedding of `int(color, 16)` on hex-digit strings. -/
def hexVal (s : String) : Nat := s.data.foldl (fun n c => 16 * n + hexDigitVal c) 0

/-- One outbound HTTP POST of the Notifier (the timestamp field, wall-clock
time, is outside the model). -/
structure WebhookPost where
  url : String
  title : String
  color : Nat
  description : String

/-- Embedding of `push_discord` (run.py lines 29-42): the returned list is
the network calls issued.  `if not url: return` skips falsy endpoints
(absent, or the empty string). -/
def push_discord (url : Option String) (color : String) (title : String) (msg : String) :
    List WebhookPost :=
  match url with
  | none => []
  | some u => if u = "" then [] else [⟨u, title, hexVal color, msg⟩]

/-- Exceptions that can escape the script body. -/
inductive RunError where
  | templateNotFound
  | calledProcessError (code : Int)
deriving DecidableEq

/-- Embedding of `update_index` (run.py lines 62-77): if the template
resource is present, return the library listing rendered into the index
(extension-stripped, five-pass sorted); otherwise `get_template` raises.
The timestamp line and the file write are outside the model. -/
def update_index (hasTemplate : Bool) (new_libs : List String) :
    Except RunError (List String) :=
  if hasTemplate then Except.ok (sortLibs (new_libs.map strip_name))
  else Except.error RunError.templateNotFound

/-- Embedding of `diff = new_libs - old_libs` (run.py line 92). -/
def artifact_diff (old_libs new_libs : Finset String) : Finset String :=
  new_libs \ old_libs

/-- Embedding of the `try` body (run.py lines 80-99).  The directory is
snapshotted as listings (`os.listdir`) taken before and after the external
process; `procExit` is the container's exit status (`check=True` raises
`CalledProcessError` exactly on a non-zero status).  The first component
collects the notification events issued before the body ends or raises; the
second is `ok` with the rendered index listing (`none` when no render
happened) or the escaping exception. -/
def script_body (hasTemplate : Bool) (cfg : Config) (procExit : Int)
    (oldListing newListing : List String) :
    List Note × Except RunError (Option (List String)) :=
  if procExit = 0 then
    let d := artifact_diff oldListing.toFinset newListing.toFinset
    if d = ∅ then ([], Except.ok none)
    else
      match update_index hasTemplate newListing with
      | Except.ok libs => ([announceNote cfg d], Except.ok (some libs))
      | Except.error e => ([announceNote cfg d], Except.error e)
  else ([], Except.error (RunError.calledProcessError procExit))

/-- Embedding of the `except subprocess.CalledProcessError` handler
(run.py lines 101-104): it catches only that exception; a sentinel
`returncode` of `-1` is suppressed, any other code produces one error
notification.  Every other exception propagates unchanged. -/
def handle_cpe (cfg : Config) :
    List Note × Except RunError (Option (List String)) →
      List Note × Except RunError (Option (List String))
  | (notes, Except.error (RunError.calledProcessError code)) =>
    if code = -1 then (notes, Except.ok none)
    else (notes ++ [errorNote cfg code], Except.ok none)
  | r => r

/-- The whole guarded run: body wrapped in the handler. -/
def script (hasTemplate : Bool) (cfg : Config) (procExit : Int)
    (oldListing newListing : List String) :
    List Note × Except RunError (Option (List String)) :=
  handle_cpe cfg (script_body hasTemplate cfg procExit oldListing newListing)

example : py_splitext "2021.3.5f1.zip" = ("2021.3.5f1", ".zip") := by decide
example : py_splitext "2021.3.5f1" = ("2021.3", ".5f1") := by decide
example : py_splitext ".bashrc" = (".bashrc", "") := by decide
example : py_splitext "a." = ("a", ".") := by decide
example : strip_name "libraries/2021.3.5f1.zip" = "2021.3.5f1" := by decide
example : announce_display "2021.3.5f1.zip" = "2021.3.5f1." := by decide

theorem takeWhile_append_all {p : Char → Bool} :
    ∀ {xs ys : List Char}, (∀ c ∈ xs, p c = true) →
      (xs ++ ys).takeWhile p = xs ++ ys.takeWhile p := by
  intro xs
  induction xs with
  | nil => intro ys _; rfl
  | cons a t ih =>
    intro ys h
    have ha : p a = true := h a (List.mem_cons_self a t)
    simp only [List.cons_append, List.takeWhile_cons, ha, if_true]
    rw [ih (fun c hc => h c (List.mem_cons_of_mem a hc))]

theorem dropWhile_append_all {p : Char → Bool} :
    ∀ {xs ys : List Char}, (∀ c ∈ xs, p c = true) →
      (xs ++ ys).dropWhile p = ys.dropWhile p := by
  intro xs
  induction xs with
  | nil => intro ys _; rfl
  | cons a t ih =>
    intro ys h
    have ha : p a = true := h a (List.mem_cons_self a t)
    simp only [List.cons_append, List.dropWhile_cons, ha, if_true]
    exact ih (fun c hc => h c (List.mem_cons_of_mem a hc))

theorem takeWhile_all {p : Char → Bool} : ∀ {xs : List Char}, (∀ c ∈ xs, p c = true) →
    xs.takeWhile p = xs := by
  intro xs
  induction xs with
  | nil => intro _; rfl
  | cons a t ih =>
    intro h
    have ha : p a = true := h a (List.mem_cons_self a t)
    simp only [List.takeWhile_cons, ha, if_true]
    rw [ih (fun c hc => h c (List.mem_cons_of_mem a hc))]

theorem dropWhile_all {p : Char → Bool} : ∀ {xs : List Char}, (∀ c ∈ xs, p c = true) →
    xs.dropWhile p = [] := by
  intro xs
  induction xs with
  | nil => intro _; rfl
  | cons a t ih =>
    intro h
    have ha : p a = true := h a (List.mem_cons_self a t)
    simp only [List.dropWhile_cons, ha, if_true]
    exact ih (fun c hc => h c (List.mem_cons_of_mem a hc))

theorem isAlpha_not_isDigit (c : Char) (h : c.isAlpha = true) : c.isDigit = false := by
  cases hd : c.isDigit with
  | false => rfl
  | true =>
    exfalso
    simp only [Char.isDigit, Bool.and_eq_true, decide_eq_true_eq, ge_iff_le] at hd
    simp only [Char.isAlpha, Char.isUpper, Char.isLower, Bool.or_eq_true, Bool.and_eq_true,
      decide_eq_true_eq, ge_iff_le] at h
    rcases h with ⟨h1, _⟩ | ⟨h1, _⟩
    · exact absurd (UInt32.le_trans h1 hd.2) (by decide)
    · exact absurd (UInt32.le_trans h1 hd.2) (by decide)

/-- Claim C3: on the spec's example inputs (taken after the renderer's
extension-stripping step), the five-pass ordering stage of the Index
Renderer produces the listing sorted by ascending
(major, minor, qualifierNum, qualifierLetter, qualifierSuffix). -/
theorem index_order_on_spec_example :
    sortLibs ["2021.3.5f1", "2021.3.10a2", "2020.1.1"] =
      ["2020.1.1", "2021.3.5f1", "2021.3.10a2"] := by decide

/-- Claim C4: on every qualifier of the form digit-run, then optionally one
letter, then optionally another digit-run, the VersionKey Parser returns the
triple (numeric value of the first run, the letter, numeric value of the
second run), with `""` for an absent letter and `0` for an absent second run
(an absent letter forces an absent second run, else the first greedy digit
run would absorb the second). -/
theorem split_num_on_wellformed_qualifier (d l m : String)
    (hd0 : d.data ≠ [])
    (hd : ∀ c ∈ d.data, c.isDigit = true)
    (hl : l.data = [] ∨ ∃ c, l.data = [c] ∧ c.isAlpha = true)
    (hm : ∀ c ∈ m.data, c.isDigit = true)
    (hlm : l.data = [] → m.data = []) :
    split_num (d ++ l ++ m) = (digitsVal d.data, l, digitsVal m.data) := by
  have hdata : (d ++ l ++ m).data = d.data ++ (l.data ++ m.data) := by
    rw [String.data_append, String.data_append, List.append_assoc]
  have hmk : String.mk l.data = l := rfl
  have hne : d.data.isEmpty = false := by
    cases hdd : d.data with
    | nil => exact absurd hdd hd0
    | cons a t => rfl
  rcases hl with hl0 | ⟨c, hlc, hca⟩
  · have hm0 : m.data = [] := hlm hl0
    have heq : (d ++ l ++ m).data = d.data := by
      rw [hdata, hl0, hm0]
      simp
    have hte : (d ++ l ++ m).data.takeWhile Char.isDigit = d.data := by
      rw [heq]
      exact takeWhile_all hd
    have hdw : (d ++ l ++ m).data.dropWhile Char.isDigit = [] := by
      rw [heq]
      exact dropWhile_all hd
    have hl_str : l = "" := by
      rw [← hmk, hl0]
    unfold split_num
    rw [hte, hdw, hne]
    rw [if_neg (by decide : ¬ (false = true))]
    show (digitsVal d.data, "", 0) = (digitsVal d.data, l, digitsVal m.data)
    rw [hl_str, hm0]
    rfl
  · have hcd : c.isDigit = false := isAlpha_not_isDigit c hca
    have hte : (d ++ l ++ m).data.takeWhile Char.isDigit = d.data := by
      rw [hdata, takeWhile_append_all hd, hlc]
      simp [List.takeWhile_cons, hcd]
    have hdw : (d ++ l ++ m).data.dropWhile Char.isDigit = c :: m.data := by
      rw [hdata, dropWhile_append_all hd, hlc]
      simp [List.dropWhile_cons, hcd]
    have hl_str : String.mk [c] = l := hlc ▸ hmk
    unfold split_num
    rw [hte, hdw, hne]
    rw [if_neg (by decide : ¬ (false = true))]
    show (if c.isAlpha = true then
        (digitsVal d.data, String.mk [c], digitsVal (m.data.takeWhile Char.isDigit))
      else (digitsVal d.data, "", 0)) = (digitsVal d.data, l, digitsVal m.data)
    rw [if_pos hca, takeWhile_all hm, hl_str]

/-- Witness for C4 at the concrete decomposition "10" ++ "a" ++ "2". -/
theorem split_num_on_wellformed_qualifier_holds :
    (("10" : String).data ≠ [] ∧ (∀ c ∈ ("10" : String).data, c.isDigit = true) ∧
      (∀ c ∈ ("2" : String).data, c.isDigit = true)) ∧
    split_num ("10" ++ "a" ++ "2") = (digitsVal ("10" : String).data, "a",
      digitsVal ("2" : String).data) :=
  ⟨⟨by decide, by decide, by decide⟩,
    split_num_on_wellformed_qualifier "10" "a" "2" (by decide) (by decide)
      (Or.inr ⟨'a', rfl, by decide⟩) (by decide) (by intro h; exact absurd h (by decide))⟩

/-- Claim C5: on every string that does not start with a digit (so the
pattern does not match at its start; this includes the empty string), the
VersionKey Parser returns the degenerate key (0, original string, 0).  The
embedding is a pure function, so the call has no side effects. -/
theorem split_num_malformed (s : String) (h : startsWithDigit s = false) :
    split_num s = (0, s, 0) := by
  have hte : s.data.takeWhile Char.isDigit = [] := by
    cases hs : s.data with
    | nil => rfl
    | cons a t =>
      unfold startsWithDigit at h
      rw [hs] at h
      have h2 : a.isDigit = false := h
      simp [List.takeWhile_cons, h2]
  simp [split_num, hte]

/-- Witness for C5 at concrete malformed qualifiers. -/
theorem split_num_malformed_holds :
    (startsWithDigit "x1" = false ∧ startsWithDigit "" = false) ∧
      split_num "x1" = (0, "x1", 0) ∧ split_num "" = (0, "", 0) :=
  ⟨⟨by decide, by decide⟩, split_num_malformed "x1" (by decide),
    split_num_malformed "" (by decide)⟩

/-- Claim C7: the Notifier with an absent endpoint is a no-op issuing zero
network calls, whatever the color, title and message are. -/
theorem push_discord_absent_url (color title msg : String) :
    push_discord none color title msg = [] := rfl

theorem script_ok_render (cfg : Config) (oldL newL : List String)
    (hne : artifact_diff oldL.toFinset newL.toFinset ≠ ∅) :
    script true cfg 0 oldL newL =
      ([announceNote cfg (artifact_diff oldL.toFinset newL.toFinset)],
        Except.ok (some (sortLibs (newL.map strip_name)))) := by
  simp [script, script_body, update_index, handle_cpe, hne]

theorem script_ok_nodiff (hasT : Bool) (cfg : Config) (oldL newL : List String)
    (he : artifact_diff oldL.toFinset newL.toFinset = ∅) :
    script hasT cfg 0 oldL newL = ([], Except.ok none) := by
  simp [script, script_body, handle_cpe, he]

theorem script_sentinel (cfg : Config) (oldL newL : List String) :
    script true cfg (-1) oldL newL = ([], Except.ok none) := by
  simp [script, script_body, handle_cpe]

theorem script_failure (cfg : Config) (oldL newL : List String) (c : Int)
    (h0 : c ≠ 0) (h1 : c ≠ -1) :
    script true cfg c oldL newL = ([errorNote cfg c], Except.ok none) := by
  simp [script, script_body, handle_cpe, h0, h1]

theorem script_no_template (cfg : Config) (oldL newL : List String)
    (hne : artifact_diff oldL.toFinset newL.toFinset ≠ ∅) :
    script false cfg 0 oldL newL =
      ([announceNote cfg (artifact_diff oldL.toFinset newL.toFinset)],
        Except.error RunError.templateNotFound) := by
  simp [script, script_body, update_index, handle_cpe, hne]

theorem sortLibs_perm (l : List String) : (sortLibs l).Perm l := by
  simp only [sortLibs]
  exact (List.perm_insertionSort _ _).trans ((List.perm_insertionSort _ _).trans
    ((List.perm_insertionSort _ _).trans ((List.perm_insertionSort _ _).trans
      (List.perm_insertionSort _ _))))

/-- Claim C2: with exit code 0 and a non-empty diff the Runner issues exactly
one announce notification and one index re-render; with exit code -1 it
issues zero notifications; with any other non-zero code it issues exactly one
error notification whose message contains that exit code, and no index
update occurs. -/
theorem runner_exit_code_effects (cfg : Config) (oldL newL : List String) (c : Int) :
    (artifact_diff oldL.toFinset newL.toFinset ≠ ∅ →
      ((script true cfg 0 oldL newL).1.length = 1 ∧
        (∀ n ∈ (script true cfg 0 oldL newL).1, n.sev = Sev.announce) ∧
        (∃ L, (script true cfg 0 oldL newL).2 = Except.ok (some L)))) ∧
    ((script true cfg (-1) oldL newL).1 = []) ∧
    (c ≠ 0 → c ≠ -1 →
      ((script true cfg c oldL newL).1.length = 1 ∧
        (∀ n ∈ (script true cfg c oldL newL).1,
          n.sev = Sev.error ∧ ∃ s t, n.msg = s ++ toString c ++ t) ∧
        (script true cfg c oldL newL).2 = Except.ok none)) := by
  refine ⟨fun hne => ?_, ?_, fun h0 h1 => ?_⟩
  · rw [script_ok_render cfg oldL newL hne]
    refine ⟨rfl, ?_, ⟨sortLibs (newL.map strip_name), rfl⟩⟩
    intro n hn
    rw [List.mem_singleton] at hn
    subst hn
    rfl
  · rw [script_sentinel]
  · rw [script_failure cfg oldL newL c h0 h1]
    refine ⟨rfl, ?_, rfl⟩
    intro n hn
    rw [List.mem_singleton] at hn
    subst hn
    exact ⟨rfl, "Unexpected error while running script: `", "`", rfl⟩

/-- Witness for C2 at a concrete configuration, listings, and exit code 7. -/
theorem runner_exit_code_effects_holds :
    (artifact_diff ([] : List String).toFinset (["1.2.3.zip"] : List String).toFinset ≠ ∅ ∧
      (7 : Int) ≠ 0 ∧ (7 : Int) ≠ -1) ∧
    (script true ⟨none, none, none, none⟩ 0 [] ["1.2.3.zip"]).1.length = 1 ∧
    (script true ⟨none, none, none, none⟩ (-1) [] ["1.2.3.zip"]).1 = [] ∧
    (script true ⟨none, none, none, none⟩ 7 [] ["1.2.3.zip"]).1.length = 1 :=
  ⟨⟨by decide, by decide, by decide⟩,
    ((runner_exit_code_effects ⟨none, none, none, none⟩ [] ["1.2.3.zip"] 7).1 (by decide)).1,
    (runner_exit_code_effects ⟨none, none, none, none⟩ [] ["1.2.3.zip"] 7).2.1,
    ((runner_exit_code_effects ⟨none, none, none, none⟩ [] ["1.2.3.zip"] 7).2.2 (by decide)
      (by decide)).1⟩

/-- Claim C6: the Artifact Set Differ is exact set difference: membership in
`diff(before, after)` is membership in `after` minus `before`;
`diff(S, S) = ∅`; and an empty diff fires no notification in the Runner. -/
theorem artifact_diff_is_set_difference (before after S : Finset String) (x : String)
    (hasT : Bool) (cfg : Config) (oldL newL : List String) :
    (x ∈ artifact_diff before after ↔ x ∈ after ∧ x ∉ before) ∧
    artifact_diff S S = ∅ ∧
    (artifact_diff oldL.toFinset newL.toFinset = ∅ →
      (script hasT cfg 0 oldL newL).1 = []) := by
  refine ⟨Finset.mem_sdiff, Finset.sdiff_self S, fun he => ?_⟩
  rw [script_ok_nodiff hasT cfg oldL newL he]

/-- Witness for C6 with the empty-diff implication fired at concrete lists. -/
theorem artifact_diff_is_set_difference_holds :
    artifact_diff (["1.2.3.zip"] : List String).toFinset
        (["1.2.3.zip"] : List String).toFinset = ∅ ∧
      (script true ⟨none, none, none, none⟩ 0 ["1.2.3.zip"] ["1.2.3.zip"]).1 = [] :=
  ⟨by decide,
    (artifact_diff_is_set_difference ∅ ∅ ∅ "" true ⟨none, none, none, none⟩
      ["1.2.3.zip"] ["1.2.3.zip"]).2.2 (by decide)⟩

/-- Claim C8: when the index template resource is missing and a render is
attempted (non-empty diff), the failure escapes the Runner's top-level
handler (which catches only the external-process exception) as the template
exception, and it is not converted into an error notification. -/
theorem template_missing_is_fatal (cfg : Config) (oldL newL : List String)
    (hne : artifact_diff oldL.toFinset newL.toFinset ≠ ∅) :
    (script false cfg 0 oldL newL).2 = Except.error RunError.templateNotFound ∧
      ∀ n ∈ (script false cfg 0 oldL newL).1, n.sev ≠ Sev.error := by
  rw [script_no_template cfg oldL newL hne]
  refine ⟨rfl, ?_⟩
  intro n hn
  rw [List.mem_singleton] at hn
  subst hn
  exact fun h => Sev.noConfusion h

/-- Witness for C8 at concrete listings. -/
theorem template_missing_is_fatal_holds :
    artifact_diff ([] : List String).toFinset (["1.2.3.zip"] : List String).toFinset ≠ ∅ ∧
      (script false ⟨none, none, none, none⟩ 0 [] ["1.2.3.zip"]).2 =
        Except.error RunError.templateNotFound :=
  ⟨by decide,
    (template_missing_is_fatal ⟨none, none, none, none⟩ [] ["1.2.3.zip"] (by decide)).1⟩

/-- Claim C10: when a re-render happens, the rendered index is built from the
entire after-run snapshot (it is a permutation of the stripped full listing
and does not depend on the before-run listing); the diff being non-empty
only gates whether the render happens at all. -/
theorem index_renders_full_snapshot (cfg : Config) (oldL oldL2 newL : List String)
    (h1 : artifact_diff oldL.toFinset newL.toFinset ≠ ∅)
    (h2 : artifact_diff oldL2.toFinset newL.toFinset ≠ ∅) :
    (script true cfg 0 oldL newL).2 =
      Except.ok (some (sortLibs (newL.map strip_name))) ∧
    (script true cfg 0 oldL newL).2 = (script true cfg 0 oldL2 newL).2 ∧
    (∀ L, (script true cfg 0 oldL newL).2 = Except.ok (some L) →
      L.Perm (newL.map strip_name)) ∧
    (∀ oldK : List String, artifact_diff oldK.toFinset newL.toFinset = ∅ →
      (script true cfg 0 oldK newL).2 = Except.ok none) := by
  have e1 := script_ok_render cfg oldL newL h1
  have e2 := script_ok_render cfg oldL2 newL h2
  refine ⟨by rw [e1], by rw [e1, e2], ?_, fun oldK he => by rw [script_ok_nodiff true cfg oldK newL he]⟩
  intro L hL
  rw [e1] at hL
  simp only [Except.ok.injEq, Option.some.injEq] at hL
  rw [← hL]
  exact sortLibs_perm _

/-- Witness for C10 at concrete listings with an artifact surviving from the
before-run snapshot. -/
theorem index_renders_full_snapshot_holds :
    (artifact_diff (["0.0.0.zip"] : List String).toFinset
        (["0.0.0.zip", "1.2.3.zip"] : List String).toFinset ≠ ∅ ∧
      artifact_diff ([] : List String).toFinset
        (["0.0.0.zip", "1.2.3.zip"] : List String).toFinset ≠ ∅) ∧
    (script true ⟨none, none, none, none⟩ 0 ["0.0.0.zip"] ["0.0.0.zip", "1.2.3.zip"]).2 =
      Except.ok (some (sortLibs (["0.0.0.zip", "1.2.3.zip"].map strip_name))) :=
  ⟨⟨by decide, by decide⟩,
    (index_renders_full_snapshot ⟨none, none, none, none⟩ ["0.0.0.zip"] []
      ["0.0.0.zip", "1.2.3.zip"] (by decide) (by decide)).1⟩

theorem lastIdxOf_lt_length (c : Char) : ∀ (cs : List Char) (i : Nat),
    lastIdxOf c cs = some i → i < cs.length := by
  intro cs
  induction cs with
  | nil => intro i h; exact absurd h (by simp [lastIdxOf])
  | cons a t ih =>
    intro i h
    unfold lastIdxOf at h
    cases ht : lastIdxOf c t with
    | some j =>
      rw [ht] at h
      injection h with h
      subst h
      have := ih j ht
      simp only [List.length_cons]
      omega
    | none =>
      rw [ht] at h
      by_cases hac : a = c
      · rw [if_pos hac] at h
        injection h with h
        subst h
        simp
      · rw [if_neg hac] at h
        exact absurd h (by simp)

theorem extIdx_bounds (cs : List Char) (d : Nat) (h : extIdx cs = some d) :
    1 ≤ d ∧ d < cs.length := by
  unfold extIdx at h
  cases hdot : lastIdxOf '.' cs with
  | none => rw [hdot] at h; exact absurd h (by simp)
  | some i =>
    rw [hdot] at h
    replace h : (if extBase cs ≤ i then
        (if ((cs.take i).drop (extBase cs)).any (fun x => x ≠ '.') then some i else none)
      else none) = some d := h
    by_cases h1 : extBase cs ≤ i
    · rw [if_pos h1] at h
      by_cases h2 : ((cs.take i).drop (extBase cs)).any (fun x => x ≠ '.') = true
      · rw [if_pos h2] at h
        injection h with h
        subst h
        have hi : i < cs.length := lastIdxOf_lt_length '.' cs i hdot
        obtain ⟨x, hx, _⟩ := List.any_eq_true.mp h2
        have hlen : 0 < ((cs.take i).drop (extBase cs)).length :=
          List.length_pos.mpr (List.ne_nil_of_mem hx)
        rw [List.length_drop, List.length_take] at hlen
        constructor
        · omega
        · exact hi
      · rw [if_neg h2] at h
        exact absurd h (by simp)
    · rw [if_neg h1] at h
      exact absurd h (by simp)

theorem announce_display_length (v : String) :
    (announce_display v).data.length = v.data.length - 3 := by
  show (v.data.take (v.data.length - 3)).length = v.data.length - 3
  rw [List.length_take]
  omega

/-- The announce display name (Python `v[:-3]`) differs from the
`splitext`-stripped root on every nonempty filename whose extension
(dot included) is not exactly three characters long. -/
theorem announce_display_ne_strip (v : String) (hv : v ≠ "")
    (hext : (py_splitext v).2.length ≠ 3) :
    announce_display v ≠ (py_splitext v).1 := by
  have hvd : v.data ≠ [] := by
    intro hd
    apply hv
    cases v with
    | mk l =>
      have hl : l = [] := hd
      rw [hl]
  have hpos : 0 < v.data.length := List.length_pos.mpr hvd
  cases hd : extIdx v.data with
  | none =>
    have hroot : (py_splitext v).1 = v := by
      unfold py_splitext
      rw [hd]
    intro heq
    rw [hroot] at heq
    have hlen : (announce_display v).data.length = v.data.length := by rw [heq]
    rw [announce_display_length] at hlen
    omega
  | some d =>
    obtain ⟨hd1, hd2⟩ := extIdx_bounds v.data d hd
    have hroot : (py_splitext v).1 = String.mk (v.data.take d) := by
      unfold py_splitext
      rw [hd]
    have hext2 : (py_splitext v).2 = String.mk (v.data.drop d) := by
      unfold py_splitext
      rw [hd]
    rw [hext2] at hext
    have hlen2 : (String.mk (v.data.drop d)).length = v.data.length - d := by
      show (v.data.drop d).length = v.data.length - d
      rw [List.length_drop]
    rw [hlen2] at hext
    have hext3 : v.data.length - d ≠ 3 := hext
    intro heq
    rw [hroot] at heq
    have hlen : (announce_display v).data.length = (v.data.take d).length := by rw [heq]
    rw [announce_display_length, List.length_take] at hlen
    omega

theorem announce_sorted_pair {a b : String} (hab : pyStrLe a b) (hne : a ≠ b) :
    announce_sorted {a, b} = [a, b] := by
  have hnotmem : a ∉ ({b} : Finset String) := by simp [hne]
  have hperm : (announce_sorted {a, b}).Perm [a, b] := by
    unfold announce_sorted
    refine (Finset.sort_perm_toList pyStrLe _).trans ?_
    refine (Finset.toList_insert hnotmem).trans ?_
    rw [Finset.toList_singleton]
  refine sorted_perm_eq pyStrLe hperm (Finset.sort_sorted pyStrLe _) ?_ ?_
  · simp [List.sorted_cons, hab]
  · exact fun x _ y _ hxy hyx => pyStrLe_antisymm hxy hyx

/-- Claim C9: the announce body lists the new artifacts sorted by plain
string order of the full filename (demonstrably not VersionKey order), and
the displayed name is the filename with exactly its last three characters
dropped, which differs from extension-stripping for every filename whose
extension (dot included) is not exactly three characters long. -/
theorem announce_body_order_and_truncation (d : Finset String) (v : String)
    (hv : v ≠ "") (hext : (py_splitext v).2.length ≠ 3) :
    List.Sorted pyStrLe (announce_sorted d) ∧
    announce_display v = String.mk (v.data.take (v.data.length - 3)) ∧
    announce_display v ≠ (py_splitext v).1 ∧
    announce_sorted {"2021.3.10a2.zip", "2021.3.5f1.zip"} =
      ["2021.3.10a2.zip", "2021.3.5f1.zip"] ∧
    sortByCompositeKey ["2021.3.10a2.zip", "2021.3.5f1.zip"] =
      ["2021.3.5f1.zip", "2021.3.10a2.zip"] := by
  refine ⟨Finset.sort_sorted pyStrLe d, rfl, announce_display_ne_strip v hv hext, ?_, by decide⟩
  exact announce_sorted_pair (by decide) (by decide)

/-- Witness for C9 at a concrete filename with a four-character extension. -/
theorem announce_body_order_and_truncation_holds :
    (("2021.3.10a2.zip" : String) ≠ "" ∧
      (py_splitext "2021.3.10a2.zip").2.length ≠ 3) ∧
    announce_display "2021.3.10a2.zip" ≠ (py_splitext "2021.3.10a2.zip").1 :=
  ⟨⟨by decide, by decide⟩,
    (announce_body_order_and_truncation ∅ "2021.3.10a2.zip" (by decide)
      (by decide)).2.2.1⟩
